import Mathlib

/-!
Verification development for the F-Proxy discovery-and-verification pipeline
(src/index.ts). The TypeScript source is shallowly embedded: JavaScript
numbers coming out of `parseInt` are modelled as exact integers (`ℤ`),
the special values `NaN` / `Infinity` that can flow through `parseTraffic`
are modelled explicitly, JS truthiness is spelled out at each use site, and
the insertion-ordered `Map` objects are modelled as association lists with
JS `Map.set` / `Map.has` semantics.
-/

namespace FProxy

/-! ### Data model (src/index.ts, type definitions) -/

/-- `interface SubscriptionUserinfo` (src/index.ts:68). -/
structure SubscriptionUserinfo where
  upload : ℤ
  download : ℤ
  total : ℤ
  expire : Option ℤ
deriving DecidableEq, Repr

/-- Result shape of `validateSubscription` (src/index.ts:196): `{ valid; reason? }`. -/
structure ValidationVerdict where
  valid : Bool
  reason : Option String
deriving DecidableEq, Repr

/-- `interface PageResult` (src/index.ts:61). -/
structure PageResult where
  host : String
  body : String
  header : String
  banner : String
deriving DecidableEq, Repr

/-- A `{ link, host }` candidate pair (src/index.ts:313, 479). -/
structure LinkItem where
  link : String
  host : String
deriving DecidableEq, Repr

/-! ### JS helpers -/

/-- JS `String.prototype.split` with a one-character separator, on the
character list of the string: `"a;b;".split(';') = ["a","b",""]` and
`"".split(';') = [""]`. -/
def jsSplit (sep : Char) : List Char → List (List Char)
  | [] => [[]]
  | c :: rest =>
    if c = sep then [] :: jsSplit sep rest
    else
      match jsSplit sep rest with
      | s :: ss => (c :: s) :: ss
      | [] => [[c]]

/-- JS `String.prototype.trim` on a character list.  JS strips a slightly
larger set of Unicode whitespace; on the ASCII whitespace that can occur in
these headers the two agree. -/
def jsTrim (cs : List Char) : List Char :=
  ((cs.dropWhile Char.isWhitespace).reverse.dropWhile Char.isWhitespace).reverse

/-- JS `s.startsWith(pre)`. -/
def jsStartsWith (s pre : String) : Bool :=
  pre.data.isPrefixOf s.data

/-- JS `parseInt(s, 10)`: skip leading whitespace, optional sign, then the
longest leading run of decimal digits; `NaN` (here `none`) when that run is
empty.  The JS result is a double, so integers beyond 2^53 would be rounded
there; we keep them exact, which agrees on every claim-relevant input. -/
def jsParseInt10 (s : String) : Option ℤ :=
  let cs := s.data.dropWhile (fun c => c.isWhitespace)
  let signed : Bool × List Char :=
    match cs with
    | c :: rest => if c = '-' then (true, rest)
                   else if c = '+' then (false, rest)
                   else (false, cs)
    | [] => (false, cs)
  let digits := signed.2.takeWhile (fun c => c.isDigit)
  if digits.isEmpty then none
  else
    let v : ℤ := digits.foldl (fun a c => 10 * a + (c.toNat - 48)) 0
    some (if signed.1 then -v else v)

/-- JS truthiness of a `number | null` field: `null` and `0` are falsy
(`NaN` cannot occur for fields produced by `parseSubscriptionUserinfo`). -/
def jsTruthyOptInt : Option ℤ → Bool
  | none => false
  | some n => n ≠ 0

/-! ### `parseSubscriptionUserinfo` (src/index.ts:103) -/

/-- One iteration of the `for (const pair of pairs)` loop of
`parseSubscriptionUserinfo`: split the (already trimmed) segment on `=`,
trim both parts, skip when the value is missing or empty, parse the value
with `parseInt(value, 10)` and assign it to the recognized key when the
parse did not yield `NaN`. -/
def userinfoStep (r : SubscriptionUserinfo) (pair : String) : SubscriptionUserinfo :=
  let parts := (jsSplit '=' pair.data).map (fun p => String.mk (jsTrim p))
  let key := parts.getD 0 ""
  match parts[1]? with
  | none => r
  | some value =>
    if value = "" then r
    else
      match jsParseInt10 value with
      | none => r  -- isNaN(numValue): every recognized-key branch is skipped
      | some n =>
        if key = "upload" then { r with upload := n }
        else if key = "download" then { r with download := n }
        else if key = "total" then { r with total := n }
        else if key = "expire" then { r with expire := some n }
        else r

/-- `parseSubscriptionUserinfo` (src/index.ts:103).  `!headerValue` is true
for `null` (modelled `none`) and for the empty string. -/
def parseSubscriptionUserinfo (headerValue : Option String) : Option SubscriptionUserinfo :=
  match headerValue with
  | none => none
  | some hv =>
    if hv = "" then none
    else
      let pairs := (jsSplit ';' hv.data).map (fun p => String.mk (jsTrim p))
      some (pairs.foldl userinfoStep { upload := 0, download := 0, total := 0, expire := none })

/-! ### `parseTraffic` (src/index.ts:126) -/

/-- The `UNITS` ladder (src/index.ts:15). -/
def UNITS : List String := ["B", "KB", "MB", "GB", "TB", "PB", "EB", "ZB", "YB"]

/-- A JS number as it can reach `parseTraffic`: `NaN`, `+Infinity`, or a
finite integral value (all call sites pass `parseInt`-derived integers). -/
inductive JNum where
  | nan
  | inf
  | fin (x : ℤ)
deriving DecidableEq, Repr

/-- JS `num < 0` — false for `NaN` and for `+Infinity`. -/
def jltZero : JNum → Bool
  | .nan => false
  | .inf => false
  | .fin x => x < 0

/-- JS `num < 1000` — false for `NaN` and for `+Infinity`. -/
def jltThousand : JNum → Bool
  | .nan => false
  | .inf => false
  | .fin x => x < 1000

/-- `Math.round(num)` rendered with template-string conversion; only the
`fin` case is reachable here (the branch is guarded by `num < 1000`), and
`Math.round` of an integral value is that value. -/
def roundToString : JNum → String
  | .nan => "NaN"
  | .inf => "Infinity"
  | .fin x => toString x

/-- `Math.min(Math.floor(Math.log2(num) / 10), UNITS.length - 1)`
(src/index.ts:130).  `none` plays the role of a `NaN` index (`Math.log2 NaN`
is `NaN` and `Math.min` propagates it); `+Infinity` clamps to `8`.  For a
positive integer `x`, `Math.floor (Math.log2 x / 10) = Nat.log2 x / 10`
because `⌊⌊log₂ x⌋ / 10⌋ = ⌊(log₂ x) / 10⌋`. -/
def trafficExp : JNum → Option ℕ
  | .nan => none
  | .inf => some (UNITS.length - 1)
  | .fin x => some (min (Nat.log2 x.toNat / 10) (UNITS.length - 1))

/-- `UNIT_POWERS[exp] || 1` (src/index.ts:131): `UNIT_POWERS[NaN]` is
`undefined`, which falls back to `1`; otherwise `1024 ^ exp` (src/index.ts:16),
which is truthy even at index 0. -/
def unitPower : Option ℕ → ℤ
  | none => 1
  | some e => 1024 ^ e

/-- The intermediate `dat = num / (UNIT_POWERS[exp] || 1)`: `NaN`,
`+Infinity`, or an exact rational. -/
inductive JQ where
  | nan
  | inf
  | q (x : ℚ)
deriving DecidableEq, Repr

/-- `num / p` for a positive finite `p`. -/
def jdivPow : JNum → ℤ → JQ
  | .nan, _ => .nan
  | .inf, _ => .inf
  | .fin x, p => .q ((x : ℚ) / (p : ℚ))

/-- JS `dat >= 1000` — false for `NaN`, true for `+Infinity`. -/
def jGE1000 : JQ → Bool
  | .nan => false
  | .inf => true
  | .q x => (1000 : ℚ) ≤ x

/-- Two-digit zero padding for the fractional part of a rendering. -/
def pad2 (m : ℤ) : String :=
  if m < 10 then "0" ++ toString m else toString m

/-- `x.toPrecision(3)` for a rational `x` with `1 ≤ x` (the only values the
`parseTraffic` else-branch can feed it, since there `dat ≥ 1`): three
significant digits, rounding to nearest with ties away from zero upwards,
padding with zeros like JS, and switching to exponential form when rounding
carries past `999.5`.  The `x < 1` fallback is unreachable from
`parseTraffic`. -/
def prec3 (x : ℚ) : String :=
  if x < 1 then toString (Int.floor x)
  else
    let n2 := Int.floor (x * 100 + 1 / 2)
    if n2 < 1000 then toString (n2 / 100) ++ "." ++ pad2 (n2 % 100)
    else
      let n1 := Int.floor (x * 10 + 1 / 2)
      if n1 < 1000 then toString (n1 / 10) ++ "." ++ toString (n1 % 10)
      else
        let n0 := Int.floor (x + 1 / 2)
        if n0 < 1000 then toString n0
        else "1.00e+3"

/-- `dat.toFixed(0)`: round to the nearest integer, ties toward `+∞`
(the ECMAScript `toFixed` tie rule picks the larger candidate). -/
def toFixed0 : JQ → String
  | .nan => "NaN"
  | .inf => "Infinity"
  | .q x => toString (Int.floor (x + 1 / 2))

/-- `dat.toPrecision(3)` lifted to the `dat` domain: `NaN.toPrecision(3)`
is `"NaN"` and `Infinity.toPrecision(3)` is `"Infinity"`. -/
def toPrecision3 : JQ → String
  | .nan => "NaN"
  | .inf => "Infinity"
  | .q x => prec3 x

/-- `parseTraffic` (src/index.ts:126).  The `num?: number` parameter is an
`Option JNum`: `none` is a missing argument / `undefined`
(`typeof num !== "number"`), `some` a JS number.  Note that `NaN` passes
both guards (`typeof NaN === "number"` and `NaN < 0` is false) and flows
into the exponent computation. -/
def parseTraffic (num : Option JNum) : String × String :=
  match num with
  | none => ("NaN", "")
  | some n =>
    if jltZero n then ("NaN", "")
    else if jltThousand n then (roundToString n, "B")
    else
      let e := trafficExp n
      let dat := jdivPow n (unitPower e)
      let ret := if jGE1000 dat then toFixed0 dat else toPrecision3 dat
      let unit := match e with
        | none => "B"  -- UNITS[NaN] is undefined; `|| 'B'`
        | some i => UNITS.getD i "B"
      (ret, unit)

/-! ### `calculateUsedTraffic` / `validateSubscription` (src/index.ts:139, 196) -/

/-- `calculateUsedTraffic` (src/index.ts:139). -/
def calculateUsedTraffic (userinfo : SubscriptionUserinfo) : ℤ :=
  userinfo.upload + userinfo.download

/-- `validateSubscription` (src/index.ts:196).  `now` is the value the code
computes as `Math.floor(Date.now() / 1000)`, passed explicitly here.  The
guard `if (userinfo.expire)` is JS truthiness: it rejects `null` and also
the number `0`. -/
def validateSubscription (userinfo : SubscriptionUserinfo) (now : ℤ) : ValidationVerdict :=
  let used := calculateUsedTraffic userinfo
  if used ≥ userinfo.total then { valid := false, reason := some "流量已用完" }
  else if jsTruthyOptInt userinfo.expire then
    if userinfo.expire.getD 0 ≤ now then { valid := false, reason := some "已过期" }
    else { valid := true, reason := none }
  else { valid := true, reason := none }

/-- Claim C1 as amended, written from the spec's words: `used = upload +
download`; invalid with reason "流量已用完" (quota exhausted) when
`used ≥ total`; otherwise invalid with reason "已过期" (expired) when
`expire` is present **and nonzero** and `expire ≤ now`; otherwise valid. -/
def specValidateSubscription (u : SubscriptionUserinfo) (now : ℤ) : ValidationVerdict :=
  if u.upload + u.download ≥ u.total then { valid := false, reason := some "流量已用完" }
  else
    match u.expire with
    | some e =>
      if e ≠ 0 ∧ e ≤ now then { valid := false, reason := some "已过期" }
      else { valid := true, reason := none }
    | none => { valid := true, reason := none }

/-! ### `parseYamlContent` (src/index.ts:170) -/

/-- A JavaScript value as produced by the external `YAML.parse`.  Arrays
and objects carry their own cons/nil spine (`arrNil`/`arrCons`,
`objNil`/`objCons`), so arbitrarily nested documents are representable
without a nested inductive. -/
inductive JSValue where
  | null
  | bool (b : Bool)
  | num (q : ℚ)
  | str (s : String)
  | arrNil
  | arrCons (head tail : JSValue)
  | objNil
  | objCons (key : String) (value rest : JSValue)
deriving DecidableEq, Repr

/-- JS truthiness of a value (`NaN` cannot be produced by a YAML document;
arrays and objects, empty or not, are truthy). -/
def jsTruthy : JSValue → Bool
  | .null => false
  | .bool b => b
  | .num q => q ≠ 0
  | .str s => s ≠ ""
  | _ => true

/-- `typeof v === 'object'` — true for `null`, arrays and plain objects. -/
def typeofObject : JSValue → Bool
  | .null | .arrNil | .arrCons _ _ | .objNil | .objCons _ _ _ => true
  | _ => false

/-- Is the value a plain object (a YAML mapping)? -/
def isMapping : JSValue → Bool
  | .objNil | .objCons _ _ _ => true
  | _ => false

/-- `Array.isArray v`. -/
def isArrayV : JSValue → Bool
  | .arrNil | .arrCons _ _ => true
  | _ => false

/-- Property access `v[k]` (first binding wins); `none` models `undefined`. -/
def jsGetProp : JSValue → String → Option JSValue
  | .objCons key value rest, k => if key = k then some value else jsGetProp rest k
  | _, _ => none

/-- The length of an array along its spine. -/
def arrLen : JSValue → ℕ
  | .arrCons _ tail => arrLen tail + 1
  | _ => 0

/-- Truthiness of a possibly-`undefined` value. -/
def jsTruthyOpt : Option JSValue → Bool
  | none => false
  | some v => jsTruthy v

/-- `Array.isArray` of a possibly-`undefined` value. -/
def isArrayOpt : Option JSValue → Bool
  | none => false
  | some v => isArrayV v

/-- `.length` of a value the preceding guard established to be an array. -/
def arrLenOpt : Option JSValue → ℕ
  | none => 0
  | some v => arrLen v

/-- `parseYamlContent` (src/index.ts:170), parameterized by the outcome of
the external `YAML.parse(body)` call: `Except.error` models a thrown parse
exception (the `catch` branch returns `false`). -/
def parseYamlContent (res : Except Unit JSValue) : Bool :=
  match res with
  | .error _ => false
  | .ok parsed =>
    if !(jsTruthy parsed) || !(typeofObject parsed) then false
    else
      let pg := jsGetProp parsed "proxy-groups"
      if !(jsTruthyOpt pg) || !(isArrayOpt pg) then false
      else if arrLenOpt pg = 0 then false
      else true

/-! ### `buildFullUrl` (src/index.ts:98) -/

/-- JS `p || d` for an optional string: `undefined` and `""` are falsy. -/
def jsOrDefault (p : Option String) (d : String) : String :=
  match p with
  | none => d
  | some s => if s = "" then d else s

/-- `buildFullUrl` (src/index.ts:98).  Note the guard is the literal prefix
test `host.startsWith('http')`, not a scheme test. -/
def buildFullUrl (host : String) (protocol : Option String) : String :=
  if jsStartsWith host "http" then host
  else jsOrDefault protocol "http" ++ "://" ++ host

/-- The claim's notion of "begins with a URL scheme", written from the
claim's words (RFC 3986 scheme syntax followed by `:`): a leading letter,
further scheme characters (letters, digits, `+`, `-`, `.`), then a colon. -/
def startsWithURLScheme (s : String) : Bool :=
  match s.data with
  | [] => false
  | c :: _ =>
    if c.isAlpha then
      let sch := s.data.takeWhile
        (fun ch => ch.isAlpha || ch.isDigit || ch = '+' || ch = '-' || ch = '.')
      (s.data.drop sch.length).head? = some ':'
    else false

/-! ### Header handling of `verifySubscriptionLinks` (src/index.ts:394) -/

/-- Outcome of the `subscription-userinfo` header handling inside the
per-link verification callback. -/
inductive HeaderCheckOutcome where
  | failed (reason : String)
  | proceed (userinfo : SubscriptionUserinfo)
deriving DecidableEq, Repr

/-- The header-handling prefix of the verification callback
(src/index.ts:398-408): `res.headers.get` returns `null` (`none`) for an
absent header; `!subscriptionUserinfo` also catches the empty string; a
`null` result of `parseSubscriptionUserinfo` yields the
"subscription-userinfo 解析失败" failure. -/
def verifyHeaderStage (subscriptionUserinfo : Option String) : HeaderCheckOutcome :=
  if subscriptionUserinfo = none ∨ subscriptionUserinfo = some "" then
    .failed "缺少 subscription-userinfo 响应头"
  else
    match parseSubscriptionUserinfo subscriptionUserinfo with
    | none => .failed "subscription-userinfo 解析失败"
    | some userinfo => .proceed userinfo

/-! ### `SUBSCRIPTION_REGEX` and `extractSubscriptionLinks` (src/index.ts:14, 313) -/

/-- First scheme alternative of `https?:\/\/` (the greedy `s?` tries `s`
first). -/
def SCHEME_HTTPS : List Char := "https://".data

/-- Second scheme alternative (`s?` matched empty). -/
def SCHEME_HTTP : List Char := "http://".data

/-- The literal tail `\/api\/v1\/client\/subscribe\?token=` of the pattern. -/
def SUB_LITERAL : List Char := "/api/v1/client/subscribe?token=".data

/-- The middle character class of the pattern: any character that is not
whitespace, a double quote, a single quote, `<`, `>` or a backtick
(character codes 34, 39 and 96; JS `\s` covers a slightly larger Unicode
whitespace set than `Char.isWhitespace`, with no difference on these
pages' ASCII content). -/
def isUrlChar (c : Char) : Bool :=
  !(c.isWhitespace || c = Char.ofNat 34 || c = Char.ofNat 39
    || c = '<' || c = '>' || c = Char.ofNat 96)

/-- The token class `[a-zA-Z0-9]`. -/
def isTokenChar (c : Char) : Bool := c.isAlphanum

/-- Does the remainder start with at least one token character
(`[a-zA-Z0-9]+` needs one)? -/
def hasTokenHead : List Char → Bool
  | c :: _ => isTokenChar c
  | [] => false

/-- Backtracking search of the greedy middle `[^\s\"\'<>`]+`: the largest
length `L ≥ 1` (starting from the maximal class run and shrinking) such
that the literal tail and at least one token character follow.  This is
exactly the order a backtracking regex engine tries the greedy `+`. -/
def findMiddle (rest : List Char) : ℕ → Option ℕ
  | 0 => none
  | l + 1 =>
    if SUB_LITERAL.isPrefixOf (rest.drop (l + 1))
        && hasTokenHead ((rest.drop (l + 1)).drop SUB_LITERAL.length)
    then some (l + 1)
    else findMiddle rest l

/-- Try to match `SUBSCRIPTION_REGEX` anchored at the head of `cs`; on
success return the matched substring and the remainder after it.  Mirrors
the engine: scheme alternative, greedy middle with backtracking until the
literal `/api/v1/client/subscribe?token=` and one token character follow,
then the maximal token run. -/
def tryMatchAt (cs : List Char) : Option (List Char × List Char) :=
  let scheme? : Option (List Char) :=
    if SCHEME_HTTPS.isPrefixOf cs then some SCHEME_HTTPS
    else if SCHEME_HTTP.isPrefixOf cs then some SCHEME_HTTP
    else none
  match scheme? with
  | none => none
  | some sch =>
    let rest := cs.drop sch.length
    let maxRun := (rest.takeWhile isUrlChar).length
    match findMiddle rest maxRun with
    | none => none
    | some L =>
      let afterLit := (rest.drop L).drop SUB_LITERAL.length
      let token := afterLit.takeWhile isTokenChar
      some (sch ++ rest.take L ++ SUB_LITERAL ++ token, afterLit.drop token.length)

/-- Global scan (`content.match(regex)` with the `g` flag): advance one
position at a time, emit each leftmost match and resume after its end
(matches are non-empty, so the fuel `|cs|` always suffices). -/
def scanMatches : List Char → ℕ → List String
  | _, 0 => []
  | cs, fuel + 1 =>
    match tryMatchAt cs with
    | some (m, rest) => String.mk m :: scanMatches rest fuel
    | none =>
      match cs with
      | [] => []
      | _ :: t => scanMatches t fuel

/-- All non-overlapping matches of `SUBSCRIPTION_REGEX` in a string, in
order. -/
def jsMatchAll (content : String) : List String :=
  scanMatches content.data content.data.length

/-- The body of the `matches.forEach` callback of `findAndAddLinks`
(src/index.ts:322): insert into the insertion-ordered map only when the
link key is not yet present. -/
def insertIfAbsent (m : List (String × String)) (link host : String) : List (String × String) :=
  if m.any (fun p => p.1 = link) then m else m ++ [(link, host)]

/-- `findAndAddLinks` (src/index.ts:318): skip falsy (empty) content,
otherwise record every match under its originating host, first write wins. -/
def findAndAddLinks (m : List (String × String)) (content : String) (host : String) :
    List (String × String) :=
  if content = "" then m
  else (jsMatchAll content).foldl (fun acc link => insertIfAbsent acc link host) m

/-- `extractSubscriptionLinks` (src/index.ts:313): scan `body`, `header`,
`banner` of each page in order into one shared insertion-ordered map, then
list its entries as `{link, host}` pairs. -/
def extractSubscriptionLinks (pageResults : List PageResult) : List LinkItem :=
  let m := pageResults.foldl
    (fun m pr =>
      findAndAddLinks (findAndAddLinks (findAndAddLinks m pr.body pr.host) pr.header pr.host)
        pr.banner pr.host)
    ([] : List (String × String))
  m.map (fun p => { link := p.1, host := p.2 })

/-- Spec side of claim C6: all matches of one PageResult, field order
`body`, `header`, `banner`, each tagged with the page's host. -/
def pageOccurrences (pr : PageResult) : List (String × String) :=
  (jsMatchAll pr.body ++ jsMatchAll pr.header ++ jsMatchAll pr.banner).map (fun l => (l, pr.host))

/-- Spec side of claim C6: the occurrence stream of a whole batch, page
order preserved. -/
def allOccurrences (pageResults : List PageResult) : List (String × String) :=
  (pageResults.map pageOccurrences).flatten

/-- Spec side of claim C6: keep only the first occurrence of every link,
in first-occurrence order. -/
def firstDedup : List (String × String) → List (String × String)
  | [] => []
  | p :: rest => p :: firstDedup (rest.filter (fun q => ¬ (q.1 = p.1)))
termination_by l => l.length
decreasing_by
  simp only [List.length_cons]
  exact Nat.lt_succ_of_le (List.length_filter_le _ _)

/-- Is the link key of `p` absent from the accumulated map `acc`? -/
def keyAbsent (acc : List (String × String)) (p : String × String) : Bool :=
  !(acc.any (fun q => q.1 = p.1))

/-! ### `deduplicateLinks` (src/index.ts:479) -/

/-- The components of a parsed WHATWG `URL` that `deduplicateLinks` uses. -/
structure URLParts where
  hostname : String
  pathname : String
  search : String
deriving DecidableEq, Repr

/-- A model of `new URL(link)` for the cases this pipeline can meet: an
`http`/`https` URL is split into the authority (up to the first `/`, `?` or
`#`), from which userinfo (up to the last `@`) and a port (after `:`) are
stripped to obtain the hostname, a pathname (defaulting to `/`), and the
`?…` search string; the fragment is dropped.  A non-http(s) scheme or an
empty hostname throws (`none`), as the WHATWG parser does.  Hostname
case/percent normalization, path-dot normalization and IPv6 bracket hosts
are not modelled; no claim depends on them. -/
def parseURL (s : String) : Option URLParts :=
  if jsStartsWith s "https://" || jsStartsWith s "http://" then
    let rest := if jsStartsWith s "https://" then s.data.drop 8 else s.data.drop 7
    let authority := rest.takeWhile (fun c => !(c = '/' || c = '?' || c = '#'))
    let afterAuth := rest.drop authority.length
    let hostport := (jsSplit '@' authority).getLastD []
    let hostname := hostport.takeWhile (fun c => !(c = ':'))
    if hostname.isEmpty then none
    else
      let pathAndQuery := afterAuth.takeWhile (fun c => !(c = '#'))
      let pathname := pathAndQuery.takeWhile (fun c => !(c = '?'))
      let search := pathAndQuery.drop pathname.length
      some { hostname := String.mk hostname,
             pathname := if pathname.isEmpty then "/" else String.mk pathname,
             search := String.mk search }
  else none

/-- The deduplication key of `deduplicateLinks`:
`url.hostname + url.pathname + url.search` for a parseable link, the raw
link string otherwise (the `catch` branch). -/
def linkKey (link : String) : String :=
  match parseURL link with
  | some u => u.hostname ++ u.pathname ++ u.search
  | none => link

/-- `uniqueLinksMap.get(k)` on the insertion-ordered map. -/
def lookupKey (m : List (String × LinkItem)) (k : String) : Option LinkItem :=
  (m.find? (fun p => p.1 = k)).map (fun p => p.2)

/-- `uniqueLinksMap.set(k, v)` for a key that is already present: a JS
`Map` keeps the original insertion position and replaces the value. -/
def mapSet (m : List (String × LinkItem)) (k : String) (v : LinkItem) :
    List (String × LinkItem) :=
  m.map (fun p => if p.1 = k then (k, v) else p)

/-- One iteration of the `links.forEach` body of `deduplicateLinks`
(src/index.ts:482): for a parseable URL, insert under the
hostname+pathname+search key, overwriting only when the newcomer starts
with `https://` and the incumbent starts with `http://`; on a parse
failure, insert under the raw link when that key is absent. -/
def dedupStep (m : List (String × LinkItem)) (item : LinkItem) : List (String × LinkItem) :=
  match parseURL item.link with
  | some url =>
    let hostKey := url.hostname ++ url.pathname ++ url.search
    match lookupKey m hostKey with
    | none => m ++ [(hostKey, item)]
    | some existing =>
      if jsStartsWith item.link "https://" && jsStartsWith existing.link "http://" then
        mapSet m hostKey item
      else m
  | none =>
    if (lookupKey m item.link).isSome then m else m ++ [(item.link, item)]

/-- `deduplicateLinks` (src/index.ts:479). -/
def deduplicateLinks (links : List LinkItem) : List LinkItem :=
  (links.foldl dedupStep []).map (fun p => p.2)

/-- Spec side of claim C5: the retention rule between an incumbent and a
newcomer that collide on a key — an `https://` newcomer replaces an
`http://` incumbent, otherwise the first-seen incumbent wins. -/
def dedupPick (existing item : LinkItem) : LinkItem :=
  match parseURL item.link with
  | some _ =>
    if jsStartsWith item.link "https://" && jsStartsWith existing.link "http://" then item
    else existing
  | none => existing

/-- Spec side of claim C5: the retained entry after folding the retention
rule over all candidates that carry a given key. -/
def keyFold : Option LinkItem → List LinkItem → Option LinkItem
  | o, [] => o
  | o, item :: rest =>
    keyFold (match o with
             | none => some item
             | some existing => some (dedupPick existing item)) rest

/-- Invariant of the deduplication map: every entry is stored under the key
of its own link, and the stored keys are pairwise distinct. -/
def DedupWF (m : List (String × LinkItem)) : Prop :=
  (∀ p ∈ m, p.1 = linkKey p.2.link) ∧ (m.map Prod.fst).Nodup

/-! ### Shared helper lemmas -/

/-- `parseSubscriptionUserinfo` returns a record for every non-empty string. -/
theorem parseSubscriptionUserinfo_isSome (s : String) (hs : s ≠ "") :
    (parseSubscriptionUserinfo (some s)).isSome = true := by
  simp [parseSubscriptionUserinfo, hs]

/-- Unit strings at ladder indices `1..8` differ from `"B"`. -/
theorem UNITS_getD_ne_B (i : ℕ) (h1 : 1 ≤ i) (h8 : i ≤ 8) : UNITS.getD i "B" ≠ "B" := by
  interval_cases i <;> decide

/-- No entry of the unit ladder (nor the `"B"` fallback) is empty. -/
theorem UNITS_getD_ne_empty (i : ℕ) : UNITS.getD i "B" ≠ "" := by
  rcases Nat.lt_or_ge i 9 with h | h
  · interval_cases i <;> decide
  · rw [List.getD_eq_default]
    · decide
    · simpa [UNITS] using h

/-- For a finite input of at least 1000 bytes, the unit returned by
`parseTraffic` is the ladder entry at the computed exponent. -/
theorem parseTraffic_snd_of_large (x : ℤ) (hx0 : ¬ (x < 0)) (hge : ¬ (x < 1000)) :
    (parseTraffic (some (JNum.fin x))).2
      = UNITS.getD (min (Nat.log2 x.toNat / 10) (UNITS.length - 1)) "B" := by
  simp [parseTraffic, jltZero, jltThousand, trafficExp, hx0, hge]

/-- `findAndAddLinks` is the insertion fold over the tagged match list
(empty content produces no matches, so the falsy-content short-circuit is
invisible). -/
theorem findAndAddLinks_eq_foldl (m : List (String × String)) (content host : String) :
    findAndAddLinks m content host
      = ((jsMatchAll content).map (fun l => (l, host))).foldl
          (fun acc p => insertIfAbsent acc p.1 p.2) m := by
  by_cases hc : content = ""
  · subst hc
    simp [findAndAddLinks, jsMatchAll, scanMatches]
  · rw [findAndAddLinks, if_neg hc, List.foldl_map]

/-- Processing one page equals the insertion fold over its occurrence
stream. -/
theorem page_step_eq_foldl (m : List (String × String)) (pr : PageResult) :
    findAndAddLinks (findAndAddLinks (findAndAddLinks m pr.body pr.host) pr.header pr.host)
        pr.banner pr.host
      = (pageOccurrences pr).foldl (fun acc p => insertIfAbsent acc p.1 p.2) m := by
  rw [findAndAddLinks_eq_foldl, findAndAddLinks_eq_foldl, findAndAddLinks_eq_foldl,
    pageOccurrences, List.map_append, List.map_append, List.foldl_append, List.foldl_append]

/-- Processing a batch equals the insertion fold over all its occurrences. -/
theorem batch_eq_foldl (pageResults : List PageResult) (m : List (String × String)) :
    pageResults.foldl
        (fun m pr =>
          findAndAddLinks (findAndAddLinks (findAndAddLinks m pr.body pr.host) pr.header pr.host)
            pr.banner pr.host)
        m
      = (allOccurrences pageResults).foldl (fun acc p => insertIfAbsent acc p.1 p.2) m := by
  induction pageResults generalizing m with
  | nil => simp [allOccurrences]
  | cons pr rest ih =>
    rw [List.foldl_cons, ih, page_step_eq_foldl]
    have hsplit : allOccurrences (pr :: rest) = pageOccurrences pr ++ allOccurrences rest := by
      simp [allOccurrences]
    rw [hsplit, List.foldl_append]

/-- The absence predicate after appending a fresh entry splits into the old
absence predicate and disagreement with the new key. -/
theorem keyAbsent_append (acc : List (String × String)) (p q : String × String) :
    keyAbsent (acc ++ [p]) q = (decide (¬ (q.1 = p.1)) && keyAbsent acc q) := by
  have hc : (decide (p.1 = q.1)) = (decide (q.1 = p.1)) := decide_eq_decide.mpr eq_comm
  simp [keyAbsent, List.any_append, Bool.not_or, hc, Bool.and_comm]

/-- The first-write-wins insertion fold produces the accumulator followed
by the first occurrence of every key not already present. -/
theorem foldl_insert_eq (occs : List (String × String)) (acc : List (String × String)) :
    occs.foldl (fun acc p => insertIfAbsent acc p.1 p.2) acc
      = acc ++ firstDedup (occs.filter (keyAbsent acc)) := by
  induction occs generalizing acc with
  | nil => simp [firstDedup]
  | cons p rest ih =>
    rw [List.foldl_cons]
    by_cases hp : (acc.any (fun q => q.1 = p.1)) = true
    · have hstep : insertIfAbsent acc p.1 p.2 = acc := by
        simp [insertIfAbsent, hp]
      have habs : keyAbsent acc p = false := by
        simp [keyAbsent, hp]
      rw [hstep, ih, List.filter_cons, habs]
      simp
    · have hp' : (acc.any (fun q => q.1 = p.1)) = false := by
        cases hx : acc.any (fun q => q.1 = p.1) with
        | false => rfl
        | true => exact absurd hx hp
      have hstep : insertIfAbsent acc p.1 p.2 = acc ++ [p] := by
        simp [insertIfAbsent, hp']
      have habs : keyAbsent acc p = true := by
        simp [keyAbsent, hp']
      rw [hstep, ih, List.filter_cons, habs]
      simp only [if_true]
      rw [firstDedup]
      have hsplit : (rest.filter (keyAbsent (acc ++ [p])))
          = (rest.filter (keyAbsent acc)).filter (fun q => ¬ (q.1 = p.1)) := by
        rw [List.filter_filter]
        exact List.filter_congr (fun q _ => keyAbsent_append acc p q)
      rw [hsplit]
      simp

/-- Every entry kept by `firstDedup` comes from the input list. -/
theorem firstDedup_subset (l : List (String × String)) (q : String × String)
    (hq : q ∈ firstDedup l) : q ∈ l := by
  induction l using firstDedup.induct with
  | case1 => simp [firstDedup] at hq
  | case2 p rest ih =>
    rw [firstDedup] at hq
    rcases List.mem_cons.mp hq with h | h
    · exact h ▸ List.mem_cons_self _ _
    · exact List.mem_cons_of_mem _ (List.mem_filter.mp (ih h)).1

/-- The links kept by `firstDedup` are pairwise distinct. -/
theorem firstDedup_nodup (l : List (String × String)) :
    ((firstDedup l).map Prod.fst).Nodup := by
  induction l using firstDedup.induct with
  | case1 => simp [firstDedup]
  | case2 p rest ih =>
    rw [firstDedup, List.map_cons, List.nodup_cons]
    refine ⟨fun hmem => ?_, ih⟩
    obtain ⟨q, hq, hqe⟩ := List.mem_map.mp hmem
    have := (List.mem_filter.mp (firstDedup_subset _ _ hq)).2
    simp only [decide_not, Bool.not_eq_eq_eq_not, Bool.not_true, decide_eq_false_iff_not] at this
    exact this hqe

/-- `lookupKey` on a cons cell. -/
theorem lookupKey_cons (p : String × LinkItem) (m : List (String × LinkItem)) (k : String) :
    lookupKey (p :: m) k = if p.1 = k then some p.2 else lookupKey m k := by
  by_cases h : p.1 = k <;> simp [lookupKey, List.find?_cons, h]

/-- `lookupKey` after appending one fresh entry. -/
theorem lookupKey_append_single (m : List (String × LinkItem)) (k : String) (v : LinkItem)
    (k0 : String) :
    lookupKey (m ++ [(k, v)]) k0
      = if (lookupKey m k0).isSome then lookupKey m k0
        else if k = k0 then some v else none := by
  induction m with
  | nil => simp [lookupKey_cons, lookupKey]
  | cons p rest ih =>
    by_cases hp : p.1 = k0
    · simp [List.cons_append, lookupKey_cons, hp]
    · simp only [List.cons_append, lookupKey_cons, hp, if_false, ih]

/-- `mapSet` on a cons cell. -/
theorem mapSet_cons (p : String × LinkItem) (m : List (String × LinkItem)) (k : String)
    (v : LinkItem) :
    mapSet (p :: m) k v = (if p.1 = k then (k, v) else p) :: mapSet m k v := rfl

/-- Replacing a present key makes it look up the new value. -/
theorem lookupKey_mapSet_self (m : List (String × LinkItem)) (k : String) (v : LinkItem)
    (h : (lookupKey m k).isSome = true) :
    lookupKey (mapSet m k v) k = some v := by
  induction m with
  | nil => simp [lookupKey] at h
  | cons p rest ih =>
    by_cases hp : p.1 = k
    · rw [mapSet_cons, if_pos hp, lookupKey_cons]
      simp
    · rw [lookupKey_cons, if_neg hp] at h
      rw [mapSet_cons, if_neg hp, lookupKey_cons, if_neg hp]
      exact ih h

/-- `mapSet` leaves every other key unchanged. -/
theorem lookupKey_mapSet_other (m : List (String × LinkItem)) (k : String) (v : LinkItem)
    (k0 : String) (hne : k0 ≠ k) :
    lookupKey (mapSet m k v) k0 = lookupKey m k0 := by
  induction m with
  | nil => rfl
  | cons p rest ih =>
    by_cases hp : p.1 = k
    · rw [mapSet_cons, if_pos hp, lookupKey_cons, lookupKey_cons]
      rw [if_neg (fun h : k = k0 => hne h.symm),
        if_neg (fun h : p.1 = k0 => hne (hp.symm.trans h).symm)]
      exact ih
    · rw [mapSet_cons, if_neg hp, lookupKey_cons, lookupKey_cons]
      by_cases hp0 : p.1 = k0
      · simp [hp0]
      · rw [if_neg hp0, if_neg hp0]
        exact ih

/-- An absent key means no entry carries it. -/
theorem lookupKey_eq_none_iff (m : List (String × LinkItem)) (k : String) :
    lookupKey m k = none ↔ ∀ p ∈ m, p.1 ≠ k := by
  simp [lookupKey, List.find?_eq_none]

/-- How one `dedupStep` changes a key's entry: the stepped item's own key
now holds the fold of the retention rule; every other key is untouched. -/
theorem lookupKey_dedupStep (m : List (String × LinkItem)) (item : LinkItem) (k : String) :
    lookupKey (dedupStep m item) k
      = if linkKey item.link = k then
          some (match lookupKey m k with
                | none => item
                | some existing => dedupPick existing item)
        else lookupKey m k := by
  cases hp : parseURL item.link with
  | none =>
    have hkey : linkKey item.link = item.link := by simp [linkKey, hp]
    cases hlk : lookupKey m item.link with
    | some existing =>
      simp only [dedupStep, hp, hlk, Option.isSome_some, if_true]
      by_cases hk : item.link = k
      · subst hk
        rw [if_pos hkey, hlk]
        simp [dedupPick, hp]
      · rw [if_neg (fun h : linkKey item.link = k => hk (hkey.symm.trans h))]
    | none =>
      simp only [dedupStep, hp, hlk, Option.isSome_none, Bool.false_eq_true, if_false]
      rw [lookupKey_append_single]
      by_cases hk : item.link = k
      · subst hk
        rw [hlk]
        simp [hkey]
      · rw [if_neg (fun h : linkKey item.link = k => hk (hkey.symm.trans h)), if_neg hk]
        cases hlk0 : lookupKey m k <;> simp
  | some url =>
    have hkey : linkKey item.link = url.hostname ++ url.pathname ++ url.search := by
      simp [linkKey, hp]
    cases hlk : lookupKey m (url.hostname ++ url.pathname ++ url.search) with
    | none =>
      simp only [dedupStep, hp, hlk]
      rw [lookupKey_append_single]
      by_cases hk : url.hostname ++ url.pathname ++ url.search = k
      · subst hk
        rw [hlk]
        simp [hkey]
      · rw [if_neg (fun h : linkKey item.link = k => hk (hkey.symm.trans h)), if_neg hk]
        cases hlk0 : lookupKey m k <;> simp
    | some existing =>
      simp only [dedupStep, hp, hlk]
      by_cases hcond : (jsStartsWith item.link "https://" && jsStartsWith existing.link "http://") = true
      · rw [if_pos hcond]
        by_cases hk : url.hostname ++ url.pathname ++ url.search = k
        · subst hk
          rw [if_pos hkey, hlk, lookupKey_mapSet_self _ _ _ (by simp [hlk])]
          simp [dedupPick, hp, hcond]
        · rw [if_neg (fun h : linkKey item.link = k => hk (hkey.symm.trans h))]
          exact lookupKey_mapSet_other _ _ _ _ (fun h => hk h.symm)
      · rw [if_neg hcond]
        by_cases hk : url.hostname ++ url.pathname ++ url.search = k
        · subst hk
          rw [if_pos hkey, hlk]
          simp only [dedupPick, hp]
          rw [if_neg hcond]
        · rw [if_neg (fun h : linkKey item.link = k => hk (hkey.symm.trans h))]

/-- Folding `dedupStep` over a candidate list: each key's entry is the fold
of the retention rule over exactly the candidates carrying that key. -/
theorem lookupKey_foldl (links : List LinkItem) (m : List (String × LinkItem)) (k : String) :
    lookupKey (links.foldl dedupStep m) k
      = keyFold (lookupKey m k) (links.filter (fun item => linkKey item.link = k)) := by
  induction links generalizing m with
  | nil => simp [keyFold]
  | cons item rest ih =>
    rw [List.foldl_cons, ih, List.filter_cons]
    by_cases hk : linkKey item.link = k
    · rw [if_pos (decide_eq_true hk), lookupKey_dedupStep, if_pos hk]
      cases hlk : lookupKey m k with
      | none => rfl
      | some existing => rfl
    · rw [if_neg (by simp [hk]), lookupKey_dedupStep, if_neg hk]

/-- `dedupStep` preserves the map invariant. -/
theorem dedupStep_wf (m : List (String × LinkItem)) (item : LinkItem) (h : DedupWF m) :
    DedupWF (dedupStep m item) := by
  obtain ⟨hkeys, hnodup⟩ := h
  have happend : ∀ k0, k0 = linkKey item.link → lookupKey m k0 = none →
      DedupWF (m ++ [(k0, item)]) := by
    intro k0 hk0 hnone
    constructor
    · intro p hp
      rcases List.mem_append.mp hp with hmem | hmem
      · exact hkeys p hmem
      · rcases List.mem_singleton.mp hmem with rfl
        exact hk0
    · rw [List.map_append]
      simp only [List.map_cons, List.map_nil]
      rw [List.nodup_append]
      refine ⟨hnodup, List.nodup_singleton _, ?_⟩
      intro a ha hb
      rcases List.mem_singleton.mp hb with rfl
      obtain ⟨p, hpm, hpa⟩ := List.mem_map.mp ha
      exact (lookupKey_eq_none_iff m a).mp hnone p hpm hpa
  have hmapset : DedupWF (mapSet m (linkKey item.link) item) := by
    constructor
    · intro p hp
      obtain ⟨q, hq, hqe⟩ := List.mem_map.mp hp
      by_cases hqk : q.1 = linkKey item.link
      · rw [if_pos hqk] at hqe
        rw [← hqe]
      · rw [if_neg hqk] at hqe
        exact hqe ▸ hkeys q hq
    · have : (mapSet m (linkKey item.link) item).map Prod.fst = m.map Prod.fst := by
        rw [mapSet, List.map_map]
        apply List.map_congr_left
        intro p _
        by_cases hqk : p.1 = linkKey item.link
        · simp [hqk]
        · simp [hqk]
      rw [this]
      exact hnodup
  cases hp : parseURL item.link with
  | none =>
    have hkey : linkKey item.link = item.link := by simp [linkKey, hp]
    cases hlk : lookupKey m item.link with
    | some existing =>
      simp only [dedupStep, hp, hlk, Option.isSome_some, if_true]
      exact ⟨hkeys, hnodup⟩
    | none =>
      simp only [dedupStep, hp, hlk, Option.isSome_none, Bool.false_eq_true, if_false]
      exact happend item.link hkey.symm hlk
  | some url =>
    have hkey : linkKey item.link = url.hostname ++ url.pathname ++ url.search := by
      simp [linkKey, hp]
    cases hlk : lookupKey m (url.hostname ++ url.pathname ++ url.search) with
    | none =>
      simp only [dedupStep, hp, hlk]
      exact happend _ hkey.symm hlk
    | some existing =>
      simp only [dedupStep, hp, hlk]
      by_cases hcond : (jsStartsWith item.link "https://" && jsStartsWith existing.link "http://") = true
      · rw [if_pos hcond]
        exact hkey ▸ hmapset
      · rw [if_neg hcond]
        exact ⟨hkeys, hnodup⟩

/-- The fold of `dedupStep` from the empty map satisfies the invariant. -/
theorem foldl_dedupStep_wf (links : List LinkItem) : DedupWF (links.foldl dedupStep []) := by
  have h : ∀ m, DedupWF m → DedupWF (links.foldl dedupStep m) := by
    induction links with
    | nil => exact fun m hm => hm
    | cons item rest ih => exact fun m hm => ih _ (dedupStep_wf m item hm)
  exact h [] ⟨by simp, by simp⟩

/-- Under the invariant, searching the value list by link key is the map
lookup. -/
theorem find?_values_eq_lookupKey (m : List (String × LinkItem)) (hwf : DedupWF m) (k : String) :
    (m.map (fun p => p.2)).find? (fun it => linkKey it.link = k)
      = (m.find? (fun p => p.1 = k)).map (fun p => p.2) := by
  induction m with
  | nil => rfl
  | cons p rest ih =>
    have hkey : p.1 = linkKey p.2.link := hwf.1 p (List.mem_cons_self _ _)
    have hwf' : DedupWF rest :=
      ⟨fun q hq => hwf.1 q (List.mem_cons_of_mem _ hq), (List.nodup_cons.mp hwf.2).2⟩
    by_cases hk : linkKey p.2.link = k
    · have hp1 : p.1 = k := hkey.trans hk
      simp [List.find?_cons, hk, hp1]
    · have hp1 : ¬ (p.1 = k) := fun h => hk (hkey.symm.trans h)
      simp only [List.map_cons, List.find?_cons]
      rw [show (decide (linkKey p.2.link = k)) = false from decide_eq_false hk,
        show (decide (p.1 = k)) = false from decide_eq_false hp1]
      exact ih hwf'

/-- Under the invariant, the stored values have pairwise distinct link
keys. -/
theorem values_pairwise_ne (m : List (String × LinkItem)) (hwf : DedupWF m) :
    (m.map (fun p => p.2)).Pairwise (fun a b => linkKey a.link ≠ linkKey b.link) := by
  have hmap : m.map Prod.fst = (m.map (fun p => p.2)).map (fun it => linkKey it.link) := by
    rw [List.map_map]
    exact List.map_congr_left (fun p hp => hwf.1 p hp)
  have := hwf.2
  rw [hmap] at this
  exact (List.pairwise_map).mp this

/-! ### Claim theorems -/

/-- Claim C1, counterexample: for the record `{upload 0, download 0,
total 1000, expire = 0}` at current time 1700000000 the quota is not
exhausted and `expire ≤ now`, so the claim demands the verdict invalid
"已过期"; the code returns valid, because `if (userinfo.expire)` treats the
present value `0` as absent. -/
theorem validateSubscription_expire_zero_cex :
    validateSubscription { upload := 0, download := 0, total := 1000, expire := some 0 } 1700000000
      = { valid := true, reason := none }
    ∧ validateSubscription { upload := 0, download := 0, total := 1000, expire := some 0 } 1700000000
      ≠ { valid := false, reason := some "已过期" }
    ∧ (0 : ℤ) + 0 < 1000 ∧ (0 : ℤ) ≤ 1700000000 := by
  decide

/-- Claim C1 as amended: `validateSubscription` computes
`used = upload + download` and checks, in order, quota exhaustion
(`used ≥ total`, reason "流量已用完") and then expiry — the latter only when
`expire` is present **and nonzero** (`expire ≤ now`, reason "已过期") —
otherwise the record is valid; together with the spec's two examples. -/
theorem validateSubscription_spec :
    (∀ (u : SubscriptionUserinfo) (now : ℤ),
        validateSubscription u now = specValidateSubscription u now)
    ∧ validateSubscription { upload := 600, download := 500, total := 1000, expire := none } 0
        = { valid := false, reason := some "流量已用完" }
    ∧ validateSubscription { upload := 0, download := 0, total := 1000, expire := some 1600000000 } 1700000000
        = { valid := false, reason := some "已过期" } := by
  refine ⟨fun u now => ?_, by decide, by decide⟩
  rcases u with ⟨up, dn, tot, ex⟩
  cases ex with
  | none =>
    simp [validateSubscription, specValidateSubscription, calculateUsedTraffic, jsTruthyOptInt]
  | some e =>
    by_cases h0 : e = 0
    · subst h0
      simp [validateSubscription, specValidateSubscription, calculateUsedTraffic, jsTruthyOptInt]
    · simp [validateSubscription, specValidateSubscription, calculateUsedTraffic, jsTruthyOptInt, h0]

/-- Claim C2, counterexample: `parseTraffic 1000` returns unit `"B"`
although `1000 ≥ 1000` (the exponent `⌊log₂ 1000 / 10⌋` is `0`), refuting
"unit is B iff n < 1000". -/
theorem parseTraffic_1000_cex :
    (parseTraffic (some (JNum.fin 1000))).2 = "B" ∧ ¬ ((1000 : ℤ) < 1000) := by
  constructor
  · have h9 : Nat.log2 (Int.toNat 1000) = 9 := by
      have h1 : 9 ≤ Nat.log2 (Int.toNat 1000) := by
        rw [Nat.le_log2 (by norm_num)]
        norm_num
      have h2 : Nat.log2 (Int.toNat 1000) < 10 := by
        rw [Nat.log2_lt (by norm_num)]
        norm_num
      omega
    rw [parseTraffic_snd_of_large 1000 (by norm_num) (by norm_num), h9]
    rfl
  · decide

/-- Claim C2 as amended: for every finite non-negative byte count `x`,
`parseTraffic` returns unit `"B"` iff `x < 1024` (not `1000`: for
`1000 ≤ x < 1024` the selected exponent is `0` and the unit is still `"B"`). -/
theorem parseTraffic_unit_B_iff (x : ℤ) (hx : 0 ≤ x) :
    (parseTraffic (some (JNum.fin x))).2 = "B" ↔ x < 1024 := by
  have hx0 : ¬ (x < 0) := by omega
  by_cases h : x < 1000
  · simp [parseTraffic, jltZero, jltThousand, hx0, h]
    omega
  · have hn : x.toNat ≠ 0 := by omega
    rw [parseTraffic_snd_of_large x hx0 h]
    by_cases h24 : x < 1024
    · have h9 : Nat.log2 x.toNat = 9 := by
        have hle : 9 ≤ Nat.log2 x.toNat := by
          rw [Nat.le_log2 hn]
          have : (2 : ℕ) ^ 9 = 512 := by norm_num
          omega
        have hlt : Nat.log2 x.toNat < 10 := by
          rw [Nat.log2_lt hn]
          have : (2 : ℕ) ^ 10 = 1024 := by norm_num
          omega
        omega
      simp [h9, UNITS, h24]
    · have h10 : 10 ≤ Nat.log2 x.toNat := by
        rw [Nat.le_log2 hn]
        have : (2 : ℕ) ^ 10 = 1024 := by norm_num
        omega
      have he1 : 1 ≤ min (Nat.log2 x.toNat / 10) (UNITS.length - 1) := by
        have : 1 ≤ Nat.log2 x.toNat / 10 := by omega
        simp only [UNITS, List.length_cons, List.length_nil]
        omega
      have he8 : min (Nat.log2 x.toNat / 10) (UNITS.length - 1) ≤ 8 := by
        simp [UNITS]
      constructor
      · intro hB
        exact absurd hB (UNITS_getD_ne_B _ he1 he8)
      · intro hlt
        omega

/-- Witness for C2's amended theorem at the concrete input `1500`. -/
theorem parseTraffic_unit_B_iff_witness :
    (0 : ℤ) ≤ 1500 ∧ ((parseTraffic (some (JNum.fin 1500))).2 = "B" ↔ (1500 : ℤ) < 1024) :=
  ⟨by decide, parseTraffic_unit_B_iff 1500 (by decide)⟩

/-- Claim C3, counterexample: `parseTraffic NaN` returns `("NaN", "B")`,
not `("NaN", "")` — `NaN` passes both guards (`typeof NaN === "number"`,
`NaN < 0` is false) and `UNITS[NaN]` falls back to `"B"`. -/
theorem parseTraffic_nan_cex :
    parseTraffic (some JNum.nan) = ("NaN", "B")
    ∧ parseTraffic (some JNum.nan) ≠ ("NaN", "") := by
  decide

/-- Claim C3 as amended: `parseTraffic` returns `("NaN", "")` exactly for a
missing argument or a negative finite number; `NaN` instead yields
`("NaN", "B")` and `+Infinity` yields `("Infinity", "YB")`; in particular
`parseTraffic (-1) = ("NaN", "")`. -/
theorem parseTraffic_nan_iff :
    (∀ num : Option JNum,
        parseTraffic num = ("NaN", "") ↔ num = none ∨ ∃ x, num = some (JNum.fin x) ∧ x < 0)
    ∧ parseTraffic (some (JNum.fin (-1))) = ("NaN", "")
    ∧ parseTraffic (some JNum.nan) = ("NaN", "B")
    ∧ parseTraffic (some JNum.inf) = ("Infinity", "YB") := by
  refine ⟨fun num => ?_, by decide, by decide, by decide⟩
  match num with
  | none => simp [parseTraffic]
  | some JNum.nan =>
    constructor
    · intro hσ
      exact absurd hσ (by decide)
    · rintro (h | ⟨x, h, _⟩) <;> simp_all
  | some JNum.inf =>
    constructor
    · intro hσ
      exact absurd hσ (by decide)
    · rintro (h | ⟨x, h, _⟩) <;> simp_all
  | some (JNum.fin x) =>
    by_cases hneg : x < 0
    · simp [parseTraffic, jltZero, hneg]
    · have hsnd : (parseTraffic (some (JNum.fin x))).2 ≠ "" := by
        by_cases h : x < 1000
        · simp [parseTraffic, jltZero, jltThousand, hneg, h]
        · rw [parseTraffic_snd_of_large x hneg h]
          exact UNITS_getD_ne_empty _
      constructor
      · intro hσ
        exact absurd (congrArg Prod.snd hσ) hsnd
      · rintro (h | ⟨y, hy, hylt⟩)
        · exact absurd h (by simp)
        · simp only [Option.some.injEq, JNum.fin.injEq] at hy
          omega

/-- Claim C4, counterexample: the non-null header string `""` does not go
through the splitting procedure (which would yield the default record);
`!headerValue` is true for the empty string and the parser returns `null`. -/
theorem parseSubscriptionUserinfo_empty_cex :
    parseSubscriptionUserinfo (some "") = none
    ∧ parseSubscriptionUserinfo (some "")
        ≠ some { upload := 0, download := 0, total := 0, expire := none } := by
  decide

/-- Claim C4 as amended: `parseSubscriptionUserinfo` returns `null` for
null/absent input **and for the empty string**; every other string yields a
record (the overall parse never fails); segments are split on `;` and `=`
with trimming, recognized keys with numeric values are set, a non-numeric
value for a recognized key leaves the field at its default, and unknown
keys are ignored — witnessed by the spec's examples. -/
theorem parseSubscriptionUserinfo_spec :
    parseSubscriptionUserinfo none = none
    ∧ parseSubscriptionUserinfo (some "") = none
    ∧ (∀ s : String, s ≠ "" → (parseSubscriptionUserinfo (some s)).isSome = true)
    ∧ parseSubscriptionUserinfo (some "upload=100; download=50; total=1000; expire=9999999999")
        = some { upload := 100, download := 50, total := 1000, expire := some 9999999999 }
    ∧ parseSubscriptionUserinfo (some "upload=abc; total=500")
        = some { upload := 0, download := 0, total := 500, expire := none }
    ∧ parseSubscriptionUserinfo (some "foo=1; upload=2; baz=qux")
        = some { upload := 2, download := 0, total := 0, expire := none } := by
  exact ⟨rfl, by decide, parseSubscriptionUserinfo_isSome, by decide, by decide, by decide⟩

/-- Witness for C4's amended theorem at a concrete non-empty header. -/
theorem parseSubscriptionUserinfo_spec_witness :
    (parseSubscriptionUserinfo (some "upload=1")).isSome = true :=
  parseSubscriptionUserinfo_spec.2.2.1 "upload=1" (by decide)

/-- Claim C10: every non-empty header string parses to a record, and since
the verification callback rejects absent/empty headers with the
missing-header verdict before parsing, the "subscription-userinfo 解析失败"
(header parse error) branch is unreachable for every header value. -/
theorem headerParseFailureUnreachable :
    (∀ s : String, s ≠ "" → (parseSubscriptionUserinfo (some s)).isSome = true)
    ∧ ∀ h : Option String,
        verifyHeaderStage h ≠ HeaderCheckOutcome.failed "subscription-userinfo 解析失败" := by
  refine ⟨parseSubscriptionUserinfo_isSome, fun h => ?_⟩
  match h with
  | none => decide
  | some s =>
    by_cases hs : s = ""
    · subst hs; decide
    · have hsome := parseSubscriptionUserinfo_isSome s hs
      simp only [verifyHeaderStage]
      rw [if_neg (by simp [hs])]
      obtain ⟨u, hu⟩ := Option.isSome_iff_exists.mp hsome
      rw [hu]
      simp

/-- Claim C5: `deduplicateLinks` keys each candidate by
hostname+pathname+search when its link parses as a URL and by the raw link
otherwise; the output holds at most one entry per key (pairwise distinct
keys); per key the retained entry is the fold of the retention rule —
an `https://` newcomer replaces an `http://` incumbent, otherwise the
first-seen entry wins — over the candidates with that key; and the spec's
http/https example keeps exactly the https entry. -/
theorem deduplicateLinks_spec :
    (∀ links : List LinkItem,
        (deduplicateLinks links).Pairwise (fun a b => linkKey a.link ≠ linkKey b.link))
    ∧ (∀ (links : List LinkItem) (k : String),
        (deduplicateLinks links).find? (fun item => linkKey item.link = k)
          = keyFold none (links.filter (fun item => linkKey item.link = k)))
    ∧ deduplicateLinks
        [{ link := "http://x.com/p", host := "h1" }, { link := "https://x.com/p", host := "h2" }]
      = [{ link := "https://x.com/p", host := "h2" }] := by
  refine ⟨fun links => ?_, fun links k => ?_, by decide⟩
  · exact values_pairwise_ne _ (foldl_dedupStep_wf links)
  · rw [deduplicateLinks, find?_values_eq_lookupKey _ (foldl_dedupStep_wf links) k]
    exact lookupKey_foldl links [] k

/-- Claim C6: `extractSubscriptionLinks` scans `body`, `header`, `banner`
of each PageResult in that order for all non-overlapping matches of the
subscription-link pattern, and its output is exactly the occurrence stream
with only the first occurrence of each link kept — each distinct link once,
attributed to the host of the first PageResult that produced it, in
first-insertion order (the output links are pairwise distinct); the spec's
same-link-twice text yields exactly one candidate. -/
theorem extractSubscriptionLinks_spec :
    (∀ pageResults : List PageResult,
        extractSubscriptionLinks pageResults
          = (firstDedup (allOccurrences pageResults)).map (fun p => { link := p.1, host := p.2 }))
    ∧ (∀ pageResults : List PageResult,
        ((extractSubscriptionLinks pageResults).map LinkItem.link).Nodup)
    ∧ extractSubscriptionLinks
        [{ host := "h",
           body := "see https://a.example/api/v1/client/subscribe?token=abc123 and https://a.example/api/v1/client/subscribe?token=abc123",
           header := "", banner := "" }]
      = [{ link := "https://a.example/api/v1/client/subscribe?token=abc123", host := "h" }] := by
  have hmain : ∀ pageResults : List PageResult,
      extractSubscriptionLinks pageResults
        = (firstDedup (allOccurrences pageResults)).map (fun p => { link := p.1, host := p.2 }) := by
    intro pageResults
    rw [extractSubscriptionLinks, batch_eq_foldl, foldl_insert_eq]
    have hfilter : (allOccurrences pageResults).filter (keyAbsent []) = allOccurrences pageResults := by
      apply List.filter_eq_self.mpr
      intro q _
      simp [keyAbsent]
    rw [hfilter, List.nil_append]
  refine ⟨hmain, fun pageResults => ?_, by decide⟩
  rw [hmain, List.map_map]
  exact firstDedup_nodup (allOccurrences pageResults)

/-- Claim C7: `parseYamlContent` returns `true` exactly when parsing
succeeded with a mapping root whose `proxy-groups` property is a non-empty
sequence — equivalently, it returns `false` iff parsing threw, or the root
is not a mapping, or the truthy-`proxy-groups`/sequence/non-emptiness
checks fail; together with concrete accepted/rejected payload shapes
(`YAML.parse` of empty text yields `null`). -/
theorem parseYamlContent_spec :
    (∀ res : Except Unit JSValue,
        parseYamlContent res = true
          ↔ ∃ v pg, res = Except.ok v ∧ isMapping v = true
              ∧ jsGetProp v "proxy-groups" = some pg
              ∧ isArrayV pg = true ∧ arrLen pg ≠ 0)
    ∧ parseYamlContent (Except.error ()) = false
    ∧ parseYamlContent (Except.ok JSValue.null) = false
    ∧ parseYamlContent (Except.ok (JSValue.str "hello")) = false
    ∧ parseYamlContent
        (Except.ok (JSValue.objCons "rules" (JSValue.arrCons (JSValue.str "r") JSValue.arrNil)
          JSValue.objNil))
      = false
    ∧ parseYamlContent (Except.ok (JSValue.objCons "proxy-groups" (JSValue.str "x") JSValue.objNil))
      = false
    ∧ parseYamlContent (Except.ok (JSValue.objCons "proxy-groups" JSValue.arrNil JSValue.objNil))
      = false
    ∧ parseYamlContent
        (Except.ok (JSValue.objCons "proxy-groups"
          (JSValue.arrCons (JSValue.objCons "name" (JSValue.str "g") JSValue.objNil) JSValue.arrNil)
          JSValue.objNil))
      = true := by
  refine ⟨fun res => ?_, by decide, by decide, by decide, by decide, by decide, by decide, by decide⟩
  match res with
  | .error e => simp [parseYamlContent]
  | .ok v =>
    cases v with
    | null => simp [parseYamlContent, jsTruthy, isMapping]
    | bool b => simp [parseYamlContent, typeofObject, isMapping]
    | num q => simp [parseYamlContent, typeofObject, isMapping]
    | str s => simp [parseYamlContent, typeofObject, isMapping]
    | arrNil => simp [parseYamlContent, jsTruthy, typeofObject, jsGetProp, jsTruthyOpt, isMapping]
    | arrCons h t => simp [parseYamlContent, jsTruthy, typeofObject, jsGetProp, jsTruthyOpt, isMapping]
    | objNil => simp [parseYamlContent, jsTruthy, typeofObject, jsGetProp, jsTruthyOpt, isMapping]
    | objCons key value rest =>
      cases hpg : jsGetProp (JSValue.objCons key value rest) "proxy-groups" with
      | none =>
        simp [parseYamlContent, jsTruthy, typeofObject, jsTruthyOpt, isMapping, hpg]
      | some pg =>
        cases pg <;>
          simp [parseYamlContent, jsTruthy, typeofObject, jsTruthyOpt, isArrayOpt, isArrayV,
            arrLenOpt, arrLen, isMapping, hpg]

/-- Claim C8, counterexample: `"ftp://x.com"` begins with a URL scheme but
is not returned verbatim (the code only tests the literal prefix `'http'`),
while `"httpx.com"` does not begin with a scheme yet is returned verbatim,
its result starting with neither `"http://"` nor a supplied protocol. -/
theorem buildFullUrl_scheme_cex :
    startsWithURLScheme "ftp://x.com" = true
    ∧ buildFullUrl "ftp://x.com" none ≠ "ftp://x.com"
    ∧ buildFullUrl "ftp://x.com" none = "http://ftp://x.com"
    ∧ startsWithURLScheme "httpx.com" = false
    ∧ buildFullUrl "httpx.com" none = "httpx.com" := by
  decide

/-- Claim C8 as amended: `buildFullUrl host protocol` returns `host`
verbatim iff `host` starts with the literal string `"http"`; otherwise it
returns `protocol` (defaulting to `"http"` when absent or empty) followed
by `"://"` and `host`. -/
theorem buildFullUrl_spec :
    ∀ (host : String) (protocol : Option String),
      (buildFullUrl host protocol = host ↔ jsStartsWith host "http" = true)
      ∧ (jsStartsWith host "http" = false →
          buildFullUrl host protocol = jsOrDefault protocol "http" ++ "://" ++ host) := by
  intro host protocol
  by_cases h : jsStartsWith host "http" = true
  · simp [buildFullUrl, h]
  · have hb : jsStartsWith host "http" = false := by
      cases hx : jsStartsWith host "http" with
      | false => rfl
      | true => exact absurd hx h
    refine ⟨⟨fun heq => ?_, fun h' => absurd h' h⟩, fun _ => by simp [buildFullUrl, hb]⟩
    rw [buildFullUrl, if_neg (by simp [hb])] at heq
    have hlen := congrArg String.length heq
    have h3 : ("://" : String).length = 3 := by decide
    rw [String.length_append, String.length_append, h3] at hlen
    omega

/-- Witness for C8's amended theorem at a concrete host and protocol. -/
theorem buildFullUrl_spec_witness :
    buildFullUrl "x.example" (some "https") = jsOrDefault (some "https") "http" ++ "://" ++ "x.example" :=
  (buildFullUrl_spec "x.example" (some "https")).2 (by decide)

/-- Witness for C10's theorem at a concrete header value. -/
theorem headerParseFailureUnreachable_witness :
    (parseSubscriptionUserinfo (some "total=5")).isSome = true
    ∧ verifyHeaderStage (some "total=5")
        ≠ HeaderCheckOutcome.failed "subscription-userinfo 解析失败" :=
  ⟨headerParseFailureUnreachable.1 "total=5" (by decide),
   headerParseFailureUnreachable.2 (some "total=5")⟩

end FProxy
